import Mathlib

/-!
# Verification of the GcodeCANBus encoder and sender

Shallow embedding of `convert.py` (G-code → CAN frame encoder) and
`send.py` (speed normalisation and transmission handshake) of the
GcodeCANBus repository, together with proofs of the specification
claims about them.

Modelling conventions:
* A line of the generated `.can` file is a list of hexadecimal digits
  (each entry `< 16`); a Python hex string maps to its digit values.
* Python `float` arithmetic is modelled by exact rational arithmetic
  (`ℚ`).  All concrete inputs used in counterexamples and witnesses are
  dyadic rationals whose Python `float` computations are exact, so the
  model and the Python program agree on them.
* Python's truncating conversion `int(x)` is `ratTrunc` (truncation
  toward zero).
* Python big-integer masking `x & 0xFFFFFF` for a possibly negative `x`
  equals the mathematical residue `x % 2 ^ 24` (Python `&` acts on the
  infinite two's-complement representation), and is embedded as `%`.
-/

set_option autoImplicit false

namespace GcodeCANBus

/-- Truncation toward zero of a rational, the meaning of Python `int(x)`
applied to a float: `q.num.tdiv q.den` divides the (reduced) numerator by
the denominator rounding toward zero. -/
def ratTrunc (q : ℚ) : ℤ :=
  q.num.tdiv q.den

/-- Little-endian hexadecimal digits of `n` (at least one digit), computed
with an explicit structural fuel so that the definition reduces by
`decide`/`rfl`; any `fuel ≥ n` gives the mathematical digit list. -/
def hexRevAux : ℕ → ℕ → List ℕ
  | 0, n => [n]
  | fuel + 1, n => if n < 16 then [n] else n % 16 :: hexRevAux fuel (n / 16)

/-- Big-endian hexadecimal digit list of `n`, as Python `format(n, "X")`
produces (one digit for `0`). -/
def hexBE (n : ℕ) : List ℕ :=
  (hexRevAux n n).reverse

/-- Python `format(n, "0wX")`: big-endian hex digits of `n`, zero-padded
on the left to width `w`; when `n` needs more than `w` digits the result
is its full (longer) digit list. -/
def fmtHex (w n : ℕ) : List ℕ :=
  if n < 16 ^ w then (List.range w).map (fun i => n / 16 ^ (w - 1 - i) % 16) else hexBE n

/-- Parse a hex-digit list into bytes two digits at a time, exactly as
`[int(s[i:i+2], 16) for i in range(0, len(s), 2)]` does on the underlying
string: a trailing odd digit yields a one-digit "byte". -/
def parsePairs : List ℕ → List ℕ
  | a :: b :: t => (16 * a + b) :: parsePairs t
  | [a] => [a]
  | [] => []

/-- Value of a big-endian hex-digit list. -/
def digitsVal16 (ds : List ℕ) : ℕ :=
  ds.foldl (fun a d => 16 * a + d) 0

/-- Value of a big-endian byte list. -/
def bytesVal (bs : List ℕ) : ℕ :=
  bs.foldl (fun a b => 256 * a + b) 0

/-! ## convert.py -/

/-- `gear_ratios` of `convert.py` (floats `13.5, 150, 150, 48, 67.82,
67.82`, all exactly representable here). -/
def gear_ratios : List ℚ :=
  [27 / 2, 150, 150, 48, 6782 / 100, 6782 / 100]

/-- `initial_positions = [0] * 6` of `convert.py`; never mutated by the
program. -/
def initial_positions : List ℚ :=
  List.replicate 6 0

/-- `calculate_crc` of `convert.py`: `sum(data) & 0xFF`. -/
def calculate_crc (data : List ℕ) : ℕ :=
  data.sum % 256

/-- Lines 76–79 of `convert.py`: the truncated scaled relative position
`int((position * gear_ratio - initial_positions[axis_id - 1]) * 100)`,
masked to 24 bits (`& 0xFFFFFF`, i.e. the residue mod `2 ^ 24`). -/
def relMasked (axis_id : ℕ) (position gear_ratio : ℚ) : ℕ :=
  (ratTrunc ((position * gear_ratio - initial_positions.getD (axis_id - 1) 0) * 100)
    % 16777216).toNat

/-- `convert_to_can_message` of `convert.py`, as the hex-digit list of the
returned string: axis id (`"02X"`), opcode `F5`, speed (`"04X"`),
subcommand `02`, and the 24-bit-masked truncated relative position
(`"06X"`).  The `last_positions` write of the source has no effect on any
emitted output and is omitted; `invert_direction` is accepted and unused
in the source. -/
def convert_to_can_message (axis_id speed : ℕ) (position gear_ratio : ℚ) : List ℕ :=
  fmtHex 2 axis_id ++ [15, 5] ++ fmtHex 4 speed ++ [0, 2] ++
    fmtHex 6 (relMasked axis_id position gear_ratio)

/-- The frame line written by `process_gcode_file`: the message digits with
the two-digit CRC over its byte pairs appended. -/
def can_message_with_crc (msg : List ℕ) : List ℕ :=
  msg ++ fmtHex 2 (calculate_crc (parsePairs msg))

/-- Line 79 of `convert.py` in isolation: the 3-byte displacement field
written for an integer displacement `d`
(`format(d & 0xFFFFFF, "06X")`). -/
def encodeDisplacement (d : ℤ) : List ℕ :=
  fmtHex 6 (d % 16777216).toNat

/-- The signed 24-bit two's-complement reading of an encoded displacement
field, the decoder the spec's round-trip property refers to (it has no
counterpart in the source): the field's byte value, shifted down by
`2 ^ 24` when it is at least `2 ^ 23`. -/
def decodeDisplacement (ds : List ℕ) : ℤ :=
  let v := bytesVal (parsePairs ds)
  if v < 8388608 then (v : ℤ) else (v : ℤ) - 16777216

/-- Numeric value of a list of ASCII decimal digit characters
(`int(s)` on a `\d+` match; Python `\d` is modelled as ASCII digits). -/
def digitsVal (ds : List Char) : ℕ :=
  ds.foldl (fun a c => 10 * a + (c.toNat - 48)) 0

/-- `re.search(r"F(\d+)", line)`: the first `F` immediately followed by at
least one digit yields the value of the maximal digit run after it. -/
def findF : List Char → Option ℕ
  | [] => none
  | 'F' :: rest =>
    let ds := rest.takeWhile Char.isDigit
    if ds = [] then findF rest else some (digitsVal ds)
  | _ :: rest => findF rest

/-- The unsigned part `\d*\.\d+|\d+` of the numeric pattern, attempted at
the head of `s1`, following Python's first-alternative-first semantics:
digits-dot-digits needs at least one digit after the dot (the integer
part may be empty); otherwise a nonempty digit run matches.  Returns the
parsed value (an exact rational; `float(tok)` is modelled exactly) and
the number of characters consumed; every successful match consumes at
least one character. -/
def numTail (s1 : List Char) : Option (ℚ × ℕ) :=
  let d1 := s1.takeWhile Char.isDigit
  match s1.drop d1.length with
  | '.' :: s3 =>
    let d2 := s3.takeWhile Char.isDigit
    if d2 = [] then
      if d1 = [] then none
      else some ((digitsVal d1 : ℚ), d1.length)
    else
      some ((digitsVal d1 : ℚ) + (digitsVal d2 : ℚ) / 10 ^ d2.length,
        d1.length + 1 + d2.length)
  | _ =>
    if d1 = [] then none
    else some ((digitsVal d1 : ℚ), d1.length)

/-- One attempt of `[-+]?\d*\.\d+|[-+]?\d+` at the head of `s`: an
optional sign (which, when present but not followed by a number body,
makes the whole attempt fail, as in Python) and then the unsigned body. -/
def matchNumAt (s : List Char) : Option (ℚ × ℕ) :=
  match s with
  | '-' :: t => (numTail t).map (fun p => (-p.1, p.2 + 1))
  | '+' :: t => (numTail t).map (fun p => (p.1, p.2 + 1))
  | _ => numTail s

/-- The scan loop of `re.findall(r"[-+]?\d*\.\d+|[-+]?\d+", line)`: try a
match at every position, left to right; a match is consumed whole, a
failure advances one character.  `fuel` bounds the number of scan steps;
since every step consumes at least one character, `fuel = s.length`
(as `scanNumbers` passes) computes the full scan. -/
def scanAux : ℕ → List Char → List ℚ
  | 0, _ => []
  | fuel + 1, s =>
    match s with
    | [] => []
    | c :: t =>
      match matchNumAt (c :: t) with
      | some (v, k) => v :: scanAux fuel ((c :: t).drop k)
      | none => scanAux fuel t

/-- `[float(v) if "." in v else int(v) for v in re.findall(...)]` of
`process_gcode_file`: all numeric tokens of the line, in order, as exact
rationals. -/
def scanNumbers (s : List Char) : List ℚ :=
  scanAux s.length s

/-- `line.startswith("G90")`. -/
def startsG90 (s : List Char) : Bool :=
  s.take 3 = ['G', '9', '0']

/-- Processing of one input line by `process_gcode_file`: the feed-rate
token (if any) updates the carried speed first; a line starting with
`G90` and containing at least 7 numeric tokens then emits one frame line
per axis 1..6, encoding token `i+1` with axis `i+1`'s gear ratio and the
current speed.  Returns the new carried speed and the emitted frame
lines. -/
def process_line (speed : ℕ) (line : List Char) : ℕ × List (List ℕ) :=
  let speed' := (findF line).getD speed
  if startsG90 line then
    if 7 ≤ (scanNumbers line).length then
      (speed', (List.range 6).map (fun i =>
        can_message_with_crc (convert_to_can_message (i + 1) speed'
          ((scanNumbers line).getD (i + 1) 0) (gear_ratios.getD i 0))))
    else (speed', [])
  else (speed', [])

/-- The whole-file loop of `process_gcode_file`: fold over the lines with
carried speed (initially `0`), concatenating the emitted frame lines. -/
def process_lines : ℕ → List (List Char) → List (List ℕ)
  | _, [] => []
  | speed, l :: ls =>
    (process_line speed l).2 ++ process_lines (process_line speed l).1 ls

/-! ## send.py -/

/-- A `can.Message`: arbitration id and payload bytes. -/
structure Msg where
  arb : ℕ
  data : List ℕ
  deriving DecidableEq, Repr

/-- `msg.data[1]`, the status byte of a response; responses are assumed to
carry at least two payload bytes (a shorter payload raises `IndexError`
in the source and is outside every claim). -/
def status (m : Msg) : ℕ :=
  m.data.getD 1 0

/-- `parse_can_message` of `send.py` on a space-free `.can` line (the
lines the converter writes contain no spaces): arbitration id from the
first two hex digits, data bytes from the remaining digits pairwise. -/
def parse_can_message (ds : List ℕ) : Msg :=
  { arb := digitsVal16 (ds.take 2), data := parsePairs (ds.drop 2) }

/-- `(msg.data[3] << 8) + msg.data[4]`, the big-endian speed field. -/
def speedOf (m : Msg) : ℕ :=
  256 * m.data.getD 3 0 + m.data.getD 4 0

/-- `adjust_speeds_within_packet` of `send.py`, as a pure function on the
message list: `none` models the `ZeroDivisionError` the source raises on
an empty list (`sum(speeds) // len(speeds)`); otherwise the reference
speed is the floor of the mean over the list's actual length, a zero
reference speed is a no-op, and otherwise each message's speed bytes are
rewritten from `int((speed / reference) * reference)` (float arithmetic
modelled by exact rationals). -/
def adjust_speeds_within_packet (msgs : List Msg) : Option (List Msg) :=
  if msgs = [] then none
  else
    let ref := (msgs.map speedOf).sum / msgs.length
    if ref = 0 then some msgs
    else
      some (msgs.map (fun m =>
        let adjusted := (ratTrunc ((speedOf m : ℚ) / ref * ref)).toNat
        { m with data := (m.data.set 3 (adjusted / 256 % 256)).set 4 (adjusted % 256) }))

/-- Outcome of the acknowledgement-collection loop of
`can_send_messages`.  `starved` is a model artifact: the finite trace of
`recv` results (or of clock readings) ran out, which cannot happen on a
real bus where `recv` always returns after its timeout. -/
inductive AckResult where
  | satisfied
  | timedOut
  | starved
  deriving DecidableEq, Repr

/-- Does `received_msg.data[1] == 2 if received_msg is not None else
False` hold? -/
def statusIs2 : Option Msg → Bool
  | some m => status m == 2
  | none => false

/-- Lines 93–101 of `send.py`: a received message whose status byte is
in the expected set `{1, 2}` has its arbitration id — whatever it is —
added to `received_responses`; anything else leaves the set unchanged. -/
def recvUpdate (received : Finset ℕ) : Option Msg → Finset ℕ
  | some m => if status m = 1 ∨ status m = 2 then insert m.arb received else received
  | none => received

/-- The `while True` receive loop of `can_send_messages` (lines 91–113 of
`send.py`).  `received` is `received_responses`; `recvs` is the sequence
of `bus.recv` results, consumed one per call; `clocks` is the sequence of
`time.time()` readings at the line-111 check, consumed one per
evaluation; `start` is `start_time`.  The set is updated by `recvUpdate`;
when it equals `{1, 2}` one further `recv` is performed (the
`[bus.recv(timeout)] * 2` expression calls `recv` once) and its status
byte decides satisfaction; otherwise the loop times out once a clock
reading exceeds `start + timeout`.  Returns the outcome and the
unconsumed suffixes of `recvs` and `clocks`. -/
def ackLoop (received : Finset ℕ) (start timeout : ℚ) :
    List (Option Msg) → List ℚ → AckResult × List (Option Msg) × List ℚ
  | [], clocks => (.starved, [], clocks)
  | r :: rest, clocks =>
    let received' := recvUpdate received r
    if received' = ({1, 2} : Finset ℕ) then
      match rest with
      | [] => (.starved, [], clocks)
      | r2 :: rest2 =>
        if statusIs2 r2 then (.satisfied, rest2, clocks)
        else
          match clocks with
          | [] => (.starved, rest2, [])
          | t :: ts =>
            if timeout < t - start then (.timedOut, rest2, ts)
            else ackLoop received' start timeout rest2 ts
    else
      match clocks with
      | [] => (.starved, rest, [])
      | t :: ts =>
        if timeout < t - start then (.timedOut, rest, ts)
        else ackLoop received' start timeout rest ts

/-- An observable event of the transmission main loop: a frame placed on
the bus, the resolution of one packet's acknowledgement loop, or the
uncaught exception `adjust_speeds_within_packet` raises on an empty
packet. -/
inductive Ev where
  | sent (m : Msg)
  | resolved (r : AckResult)
  | error
  deriving DecidableEq, Repr

/-- `can_send_messages` of `send.py`: send every message of the packet in
order (fire-and-forget), read `start_time` (the head of `clocks`; a
default of `0` stands in if the clock trace is exhausted, a model
artifact only), then run the acknowledgement loop.  Returns the events
and the unconsumed recv/clock suffixes. -/
def can_send_messages (msgs : List Msg) (timeout : ℚ)
    (recvs : List (Option Msg)) (clocks : List ℚ) :
    List Ev × (AckResult × List (Option Msg) × List ℚ) :=
  let res := ackLoop ∅ (clocks.headD 0) timeout recvs clocks.tail
  (msgs.map Ev.sent ++ [Ev.resolved res.1], res)

/-- The per-packet main loop of `send.py` (`for message in message_sets`):
adjust the packet's speeds, send it, run its acknowledgement loop to
resolution, then — whatever the outcome — move to the next packet with
the remaining recv/clock traces. -/
def runPackets (timeout : ℚ) :
    List (List Msg) → List (Option Msg) → List ℚ → List Ev
  | [], _, _ => []
  | p :: ps, recvs, clocks =>
    match adjust_speeds_within_packet p with
    | none => [Ev.error]
    | some p' =>
      let res := can_send_messages p' timeout recvs clocks
      res.1 ++ runPackets timeout ps res.2.2.1 res.2.2.2

/-- `[lines[i : i + 6] for i in range(0, len(lines), 6)]`, with explicit
structural fuel (any `fuel ≥ l.length` computes the full grouping, since
every step consumes six — at least one — elements). -/
def chunk6Aux {α : Type} : ℕ → List α → List (List α)
  | 0, _ => []
  | _, [] => []
  | fuel + 1, a :: t => ((a :: t).take 6) :: chunk6Aux fuel ((a :: t).drop 6)

/-- The grouping of the `.can` file's lines into packets of six. -/
def chunk6 {α : Type} (l : List α) : List (List α) :=
  chunk6Aux l.length l

/-- The whole `__main__` pipeline of `send.py` on the file's lines (each a
hex-digit list): group into sixes, parse each line, and run the per-packet
send/acknowledge loop. -/
def runFile (lines : List (List ℕ)) (timeout : ℚ)
    (recvs : List (Option Msg)) (clocks : List ℚ) : List Ev :=
  runPackets timeout ((chunk6 lines).map (fun ch => ch.map parse_can_message)) recvs clocks

/-! ## Helper lemmas -/

theorem fmtHex_length {w n : ℕ} (h : n < 16 ^ w) : (fmtHex w n).length = w := by
  simp [fmtHex, h]

theorem fmtHex2_eq {n : ℕ} (h : n < 256) : fmtHex 2 n = [n / 16 % 16, n % 16] := by
  rw [fmtHex, if_pos (by omega : n < 16 ^ 2), show List.range 2 = [0, 1] by decide]
  norm_num

theorem fmtHex4_eq {n : ℕ} (h : n < 65536) :
    fmtHex 4 n = [n / 4096 % 16, n / 256 % 16, n / 16 % 16, n % 16] := by
  rw [fmtHex, if_pos (by omega : n < 16 ^ 4), show List.range 4 = [0, 1, 2, 3] by decide]
  norm_num

theorem fmtHex6_eq {n : ℕ} (h : n < 16777216) :
    fmtHex 6 n =
      [n / 1048576 % 16, n / 65536 % 16, n / 4096 % 16, n / 256 % 16, n / 16 % 16, n % 16] := by
  rw [fmtHex, if_pos (by omega : n < 16 ^ 6),
    show List.range 6 = [0, 1, 2, 3, 4, 5] by decide]
  norm_num

theorem relMasked_lt (axis_id : ℕ) (position gear_ratio : ℚ) :
    relMasked axis_id position gear_ratio < 16777216 := by
  unfold relMasked
  omega

theorem initial_positions_getD (i : ℕ) : initial_positions.getD i 0 = 0 := by
  unfold initial_positions
  rcases Nat.lt_or_ge i 6 with h | h
  · interval_cases i <;> rfl
  · rw [List.getD_eq_default]
    simp [h]

theorem calculate_crc_lt (data : List ℕ) : calculate_crc data < 256 := by
  unfold calculate_crc
  omega

theorem digitsVal16_fmtHex6 {n : ℕ} (h : n < 16777216) :
    digitsVal16 (fmtHex 6 n) = n := by
  rw [fmtHex6_eq h]
  unfold digitsVal16
  simp [List.foldl]
  omega

theorem bytesVal_parsePairs_fmtHex6 {n : ℕ} (h : n < 16777216) :
    bytesVal (parsePairs (fmtHex 6 n)) = n := by
  rw [fmtHex6_eq h]
  unfold bytesVal parsePairs
  simp [List.foldl]
  omega

theorem convert_digits (axis speed : ℕ) (pos gear : ℚ) (ha : axis < 256) (hs : speed < 65536) :
    convert_to_can_message axis speed pos gear =
      [axis / 16 % 16, axis % 16, 15, 5,
       speed / 4096 % 16, speed / 256 % 16, speed / 16 % 16, speed % 16, 0, 2,
       relMasked axis pos gear / 1048576 % 16, relMasked axis pos gear / 65536 % 16,
       relMasked axis pos gear / 4096 % 16, relMasked axis pos gear / 256 % 16,
       relMasked axis pos gear / 16 % 16, relMasked axis pos gear % 16] := by
  unfold convert_to_can_message
  rw [fmtHex2_eq ha, fmtHex4_eq hs, fmtHex6_eq (relMasked_lt axis pos gear)]
  simp

theorem parsePairs_convert (axis speed : ℕ) (pos gear : ℚ) (ha : axis < 256) (hs : speed < 65536) :
    parsePairs (convert_to_can_message axis speed pos gear) =
      [axis, 245, speed / 256, speed % 256, 2,
       relMasked axis pos gear / 65536, relMasked axis pos gear / 256 % 256,
       relMasked axis pos gear % 256] := by
  have hm := relMasked_lt axis pos gear
  rw [convert_digits axis speed pos gear ha hs]
  simp only [parsePairs, List.cons.injEq, and_true, true_and]
  omega

theorem parsePairs_with_crc (axis speed : ℕ) (pos gear : ℚ) (ha : axis < 256)
    (hs : speed < 65536) :
    parsePairs (can_message_with_crc (convert_to_can_message axis speed pos gear)) =
      parsePairs (convert_to_can_message axis speed pos gear) ++
        [calculate_crc (parsePairs (convert_to_can_message axis speed pos gear))] := by
  have hcrc := calculate_crc_lt (parsePairs (convert_to_can_message axis speed pos gear))
  have hm := relMasked_lt axis pos gear
  unfold can_message_with_crc
  rw [fmtHex2_eq hcrc]
  rw [parsePairs_convert axis speed pos gear ha hs] at hcrc ⊢
  rw [convert_digits axis speed pos gear ha hs]
  simp only [List.cons_append, List.nil_append, parsePairs, List.cons.injEq, and_true, true_and]
  omega

theorem convert_length (axis speed : ℕ) (pos gear : ℚ) (ha : axis < 256)
    (hs : speed < 65536) :
    (convert_to_can_message axis speed pos gear).length = 16 := by
  rw [convert_digits axis speed pos gear ha hs]
  rfl

theorem with_crc_length (axis speed : ℕ) (pos gear : ℚ) (ha : axis < 256)
    (hs : speed < 65536) :
    (can_message_with_crc (convert_to_can_message axis speed pos gear)).length = 18 := by
  have hcrc := calculate_crc_lt (parsePairs (convert_to_can_message axis speed pos gear))
  unfold can_message_with_crc
  rw [List.length_append, convert_length axis speed pos gear ha hs, fmtHex2_eq hcrc]
  rfl

/-! ## Claim theorems -/

/-- C1: encoding the motion command `G90 X10.0 Y0 Z0 A0 B0 C0 F1000`
(feed rate 1000, axis-1 target 10.0) under axis 1's gear ratio 13.5 and
initial position 0 yields for axis 1 exactly the 9-byte frame line
`01F503E8020034BCD3` (written here as its 18 hex-digit values): axis id
`01`, opcode `F5`, speed `03E8` = 1000, subcommand `02`, displacement
`0034BC` = 13500, checksum `D3`. -/
theorem end_to_end_frame :
    (process_line 0 ("G90 X10.0 Y0 Z0 A0 B0 C0 F1000".toList)).1 = 1000 ∧
    ((process_line 0 ("G90 X10.0 Y0 Z0 A0 B0 C0 F1000".toList)).2).getD 0 [] =
      can_message_with_crc (convert_to_can_message 1 1000 10 (27 / 2)) ∧
    ((process_line 0 ("G90 X10.0 Y0 Z0 A0 B0 C0 F1000".toList)).2).getD 0 [] =
      [0, 1, 15, 5, 0, 3, 14, 8, 0, 2, 0, 0, 3, 4, 11, 12, 13, 3] := by
  refine ⟨?_, ?_, ?_⟩ <;> with_unfolding_all rfl

/-- C2 (amended: restricted to feed rates below `2 ^ 16`, the counterexample
`checksum_overflow_counterexample` showing the restriction necessary): every
frame line the encoder emits for a speed `< 65536` parses into exactly 9
bytes, and its ninth byte — the checksum — equals the sum of the preceding
8 bytes modulo 256, so a validator recomputing the sum matches it. -/
theorem checksum_ninth_byte (axis speed : ℕ) (pos gear : ℚ) (ha : axis < 256)
    (hs : speed < 65536) :
    (parsePairs (can_message_with_crc (convert_to_can_message axis speed pos gear))).length = 9 ∧
    (parsePairs (can_message_with_crc (convert_to_can_message axis speed pos gear))).getD 8 0 =
      ((parsePairs (can_message_with_crc (convert_to_can_message axis speed pos gear))).take 8).sum
        % 256 := by
  rw [parsePairs_with_crc axis speed pos gear ha hs,
    parsePairs_convert axis speed pos gear ha hs]
  refine ⟨by rfl, ?_⟩
  simp [calculate_crc, List.getD]

theorem checksum_ninth_byte_witness :
    (parsePairs (can_message_with_crc (convert_to_can_message 1 1000 10 (27 / 2)))).length = 9 ∧
    (parsePairs (can_message_with_crc (convert_to_can_message 1 1000 10 (27 / 2)))).getD 8 0 =
      ((parsePairs (can_message_with_crc (convert_to_can_message 1 1000 10 (27 / 2)))).take 8).sum
        % 256 :=
  checksum_ninth_byte 1 1000 10 (27 / 2) (by norm_num) (by norm_num)

/-- C2 counterexample: for speed `65536` (reachable from a `F65536` token)
the emitted line has 19 hex digits, its ninth parsed byte is the `02`
subcommand remnant, not the appended checksum, and a validator summing the
first 8 bytes does not match it. -/
theorem checksum_overflow_counterexample :
    (parsePairs (can_message_with_crc (convert_to_can_message 1 65536 0 1))).getD 8 0 ≠
      ((parsePairs (can_message_with_crc (convert_to_can_message 1 65536 0 1))).take 8).sum
        % 256 := by
  with_unfolding_all decide

/-- C3 (amended: the field comes from truncation toward zero — Python's
`int()` — of `(target * gearRatio - initialPosition) * 100`, not from
`round`; `displacement_round_counterexample` shows rounding disagrees):
for every axis id 1..6 and speed `< 65536`, decoding the 3-byte
relativePosition field (digits 10..15 of the message) yields exactly
`trunc((target * gearRatio - 0) * 100)` masked to 24 bits, the initial
position being the startup origin 0. -/
theorem displacement_field_trunc (axis speed : ℕ) (pos gear : ℚ)
    (h1 : 1 ≤ axis) (h2 : axis ≤ 6) (hs : speed < 65536) :
    digitsVal16 (((convert_to_can_message axis speed pos gear).drop 10).take 6) =
      (ratTrunc ((pos * gear - 0) * 100) % 16777216).toNat := by
  have ha : axis < 256 := by omega
  have hm := relMasked_lt axis pos gear
  rw [convert_digits axis speed pos gear ha hs]
  show digitsVal16 [relMasked axis pos gear / 1048576 % 16, relMasked axis pos gear / 65536 % 16,
      relMasked axis pos gear / 4096 % 16, relMasked axis pos gear / 256 % 16,
      relMasked axis pos gear / 16 % 16, relMasked axis pos gear % 16] =
    (ratTrunc ((pos * gear - 0) * 100) % 16777216).toNat
  unfold relMasked at hm ⊢
  rw [initial_positions_getD] at hm ⊢
  unfold digitsVal16
  simp only [List.foldl_cons, List.foldl_nil]
  omega

theorem displacement_field_trunc_witness :
    digitsVal16 (((convert_to_can_message 1 1000 10 (27 / 2)).drop 10).take 6) =
      (ratTrunc ((10 * (27 / 2 : ℚ) - 0) * 100) % 16777216).toNat :=
  displacement_field_trunc 1 1000 10 (27 / 2) (by norm_num) (by norm_num) (by norm_num)

/-- C3 counterexample: at axis 1, target `0.125`, gear ratio `13.5` (all
exact binary floats, so the rational model agrees with the Python
program), the scaled displacement is `168.75`; the encoder writes the
truncation `168`, while the claim's `round` gives `169`. -/
theorem displacement_round_counterexample :
    ¬ (digitsVal16 (((convert_to_can_message 1 1000 (1 / 8) (27 / 2)).drop 10).take 6) =
        (round (((1 / 8 : ℚ) * (27 / 2) - 0) * 100) % 16777216).toNat) := by
  have hfield : digitsVal16 (((convert_to_can_message 1 1000 (1 / 8) (27 / 2)).drop 10).take 6)
      = 168 := by with_unfolding_all rfl
  have hround : round (((1 / 8 : ℚ) * (27 / 2) - 0) * 100) = 169 := by
    norm_num [round_eq]
  rw [hfield, hround]
  decide

/-- C6: for every integer `d` in `[-2^23, 2^23 - 1]`, encoding `d` into
the 3-byte field (24-bit masking, line 79 of `convert.py`) and decoding
as signed 24-bit two's complement returns `d` exactly; for any integer
`d` decoding recovers `d` mod `2^24`; and encoding `2^23` equals encoding
`2^23 - 2^24` (pure masking, no exception). -/
theorem twos_complement_roundtrip :
    (∀ d : ℤ, -8388608 ≤ d → d < 8388608 →
      decodeDisplacement (encodeDisplacement d) = d) ∧
    (∀ d : ℤ, decodeDisplacement (encodeDisplacement d) % 16777216 = d % 16777216) ∧
    encodeDisplacement 8388608 = encodeDisplacement (8388608 - 16777216) := by
  have key : ∀ d : ℤ, bytesVal (parsePairs (encodeDisplacement d)) = (d % 16777216).toNat := by
    intro d
    exact bytesVal_parsePairs_fmtHex6 (by omega)
  refine ⟨?_, ?_, ?_⟩
  · intro d hlo hhi
    unfold decodeDisplacement
    simp only [key]
    split <;> omega
  · intro d
    unfold decodeDisplacement
    simp only [key]
    split <;> omega
  · unfold encodeDisplacement
    congr 1

theorem twos_complement_roundtrip_witness :
    decodeDisplacement (encodeDisplacement (-5)) = -5 :=
  twos_complement_roundtrip.1 (-5) (by norm_num) (by norm_num)

/-- C9: when a packet's decoded speeds sum to less than its frame count,
the integer reference speed floors to zero and
`adjust_speeds_within_packet` leaves every message — every byte of every
frame — unchanged (and raises nothing: the result is `some`). -/
theorem adjust_speeds_noop_when_ref_zero (msgs : List Msg)
    (h : (msgs.map speedOf).sum < msgs.length) :
    adjust_speeds_within_packet msgs = some msgs := by
  have hne : msgs ≠ [] := by
    intro e
    subst e
    simp at h
  unfold adjust_speeds_within_packet
  rw [if_neg hne]
  simp [Nat.div_eq_of_lt h]

theorem adjust_speeds_noop_witness :
    adjust_speeds_within_packet [⟨1, [1, 245, 0, 0, 0, 2, 0, 0]⟩] =
      some [⟨1, [1, 245, 0, 0, 0, 2, 0, 0]⟩] :=
  adjust_speeds_noop_when_ref_zero [⟨1, [1, 245, 0, 0, 0, 2, 0, 0]⟩] (by decide)

/-- C8 (amended: restricted to an effective feed rate below `2 ^ 16`;
`frame_line_length_counterexample` shows larger feed rates — which the
parser accepts — produce longer lines): every frame line the encoder
writes for a command whose current feed rate is below `65536` has exactly
18 hexadecimal digits, i.e. 9 bytes. -/
theorem frame_lines_length18 (speed : ℕ) (line : List Char)
    (h : (findF line).getD speed < 65536) :
    ∀ out ∈ (process_line speed line).2, out.length = 18 := by
  intro out hout
  unfold process_line at hout
  simp only [] at hout
  split at hout
  · split at hout
    · simp only [List.mem_map, List.mem_range] at hout
      obtain ⟨i, hi, rfl⟩ := hout
      exact with_crc_length (i + 1) _ _ _ (by omega) h
    · simp at hout
  · simp at hout

theorem frame_lines_length18_witness :
    ((process_line 0 ("G90 X10.0 Y0 Z0 A0 B0 C0 F1000".toList)).2.getD 0 []).length = 18 :=
  frame_lines_length18 0 ("G90 X10.0 Y0 Z0 A0 B0 C0 F1000".toList)
    (by with_unfolding_all decide)
    ((process_line 0 ("G90 X10.0 Y0 Z0 A0 B0 C0 F1000".toList)).2.getD 0 [])
    (by with_unfolding_all decide)

/-- C8 counterexample: the motion command `G90 X0 Y0 Z0 A0 B0 C0 F70000`
has a feed rate that is an integer `≥ 0`, yet the line the encoder writes
for axis 1 has 19 hex digits (the speed field `11170` needs five), not
18. -/
theorem frame_line_length_counterexample :
    ¬ (∀ out ∈ (process_line 0 ("G90 X0 Y0 Z0 A0 B0 C0 F70000".toList)).2,
        out.length = 18) := by
  with_unfolding_all decide

/-- C7: a line emits frames exactly when it starts with the `G90` marker
and contains at least 7 numeric tokens; in that case it emits exactly 6
frame lines, one per axis 1..6 in ascending order, each encoding the
numeric token at (1-based) position `axis + 1` with that axis's gear
ratio and the carried-forward feed rate (updated by this line's `F` token
when present); any other line emits nothing — and, every branch being
total, raises nothing. -/
theorem parser_emits_iff (speed : ℕ) (line : List Char) :
    ((process_line speed line).2 = [] ↔
      ¬ (startsG90 line = true ∧ 7 ≤ (scanNumbers line).length)) ∧
    (startsG90 line = true → 7 ≤ (scanNumbers line).length →
      (process_line speed line).2.length = 6 ∧
      ∀ i < 6, (process_line speed line).2.getD i [] =
        can_message_with_crc (convert_to_can_message (i + 1) ((findF line).getD speed)
          ((scanNumbers line).getD (i + 1) 0) (gear_ratios.getD i 0))) := by
  have hget : ∀ (f : ℕ → List ℕ) (i : ℕ), i < 6 →
      ((List.range 6).map f).getD i [] = f i := by
    intro f i hi
    interval_cases i <;> rfl
  unfold process_line
  by_cases h1 : startsG90 line = true
  · by_cases h2 : 7 ≤ (scanNumbers line).length
    · rw [if_pos h1, if_pos h2]
      refine ⟨by simp [h1, h2], fun _ _ => ⟨by simp, fun i hi => ?_⟩⟩
      exact hget (fun j => can_message_with_crc (convert_to_can_message (j + 1)
        ((findF line).getD speed) ((scanNumbers line).getD (j + 1) 0)
        (gear_ratios.getD j 0))) i hi
    · rw [if_pos h1, if_neg h2]
      exact ⟨by simp [h2], fun _ h2' => absurd h2' h2⟩
  · rw [if_neg h1]
    exact ⟨by simp [h1], fun h1' _ => absurd h1' h1⟩

theorem parser_emits_witness :
    (process_line 0 ("G90 X10.0 Y0 Z0 A0 B0 C0 F1000".toList)).2 ≠ [] ∧
    (process_line 0 ("G90 X10.0 Y0 Z0 A0 B0 C0 F1000".toList)).2.length = 6 ∧
    (process_line 500 ("G1 X10.0 Y0 Z0 A0 B0 C0".toList)).2 = [] := by
  have hpos := (parser_emits_iff 0 ("G90 X10.0 Y0 Z0 A0 B0 C0 F1000".toList)).2
    (by with_unfolding_all decide) (by with_unfolding_all decide)
  have hneg := (parser_emits_iff 500 ("G1 X10.0 Y0 Z0 A0 B0 C0".toList)).1
  refine ⟨?_, hpos.1, ?_⟩
  · intro he
    have := (parser_emits_iff 0 ("G90 X10.0 Y0 Z0 A0 B0 C0 F1000".toList)).1.mp he
    exact this ⟨by with_unfolding_all decide, by with_unfolding_all decide⟩
  · exact hneg.mpr (by with_unfolding_all decide)

theorem ackLoop_cons (received : Finset ℕ) (start timeout : ℚ) (r : Option Msg)
    (rest : List (Option Msg)) (clocks : List ℚ) :
    ackLoop received start timeout (r :: rest) clocks =
      (if recvUpdate received r = ({1, 2} : Finset ℕ) then
        match rest with
        | [] => (.starved, [], clocks)
        | r2 :: rest2 =>
          if statusIs2 r2 then (.satisfied, rest2, clocks)
          else
            match clocks with
            | [] => (.starved, rest2, [])
            | t :: ts =>
              if timeout < t - start then (.timedOut, rest2, ts)
              else ackLoop (recvUpdate received r) start timeout rest2 ts
      else
        match clocks with
        | [] => (.starved, rest, [])
        | t :: ts =>
          if timeout < t - start then (.timedOut, rest, ts)
          else ackLoop (recvUpdate received r) start timeout rest ts) := by
  conv_lhs => rw [ackLoop.eq_def]

theorem two_not_mem_recvUpdate {received : Finset ℕ} {r : Option Msg}
    (h2 : 2 ∉ received)
    (hr : ∀ m : Msg, r = some m → m.arb = 2 → ¬(status m = 1 ∨ status m = 2)) :
    2 ∉ recvUpdate received r := by
  cases r with
  | none => exact h2
  | some m =>
    show 2 ∉ (if status m = 1 ∨ status m = 2 then insert m.arb received else received)
    by_cases hst : status m = 1 ∨ status m = 2
    · rw [if_pos hst]
      intro hmem
      rcases Finset.mem_insert.mp hmem with he | hm
      · exact hr m rfl he.symm hst
      · exact h2 hm
    · rw [if_neg hst]
      exact h2

theorem ne_expected_of_two_not_mem {s : Finset ℕ} (h : 2 ∉ s) :
    s ≠ ({1, 2} : Finset ℕ) := by
  intro e
  subst e
  exact h (by decide)

/-- C4 counterexample: on the receive trace `(id 1, status 1)`,
`(id 2, status 1)`, `(id 1, status 2)` the loop reaches SATISFIED — the
set `{1, 2}` is completed by status-1 responses and the single extra
`recv` returns any status-2 frame — even though the only status byte
ever observed from responder 2 is `1`, not `2`, contradicting the
claim's characterisation of SATISFIED. -/
theorem handshake_counterexample :
    (ackLoop ∅ 0 3 [some ⟨1, [0, 1]⟩, some ⟨2, [0, 1]⟩, some ⟨1, [0, 2]⟩] [0]).1 =
      AckResult.satisfied ∧
    (([some ⟨1, [0, 1]⟩, some ⟨2, [0, 1]⟩, some ⟨1, [0, 2]⟩] : List (Option Msg)).all
      (fun r => match r with
        | some m => !(m.arb == 2) || (status m == 1)
        | none => true)) = true := by
  constructor
  · with_unfolding_all rfl
  · with_unfolding_all rfl

/-- C4 (amended): the loop reaches SATISFIED once the accumulated set of
arbitration ids observed with a status byte in `{1, 2}` equals exactly
`{1, 2}` and the single immediately following `recv` returns a frame with
status byte 2 — not when each expected id's latest status is 2; frames
with status bytes outside `{1, 2}` are ignored (they behave exactly like
a `None` receive and do not reset the timeout window), while frames from
other ids with status in `{1, 2}` are recorded and can prevent the set
from ever equalling `{1, 2}`.  A mock bus answering with status-2 frames
for ids 1 and 2 drives the loop to SATISFIED before the timeout; a bus on
which id 2 never responds with a recognised status drives it to TIMED_OUT
once a clock reading exceeds the window. -/
theorem handshake_behaviour :
    (∀ (m1 m2 m3 : Msg) (start timeout t1 : ℚ),
      m1.arb = 1 → m2.arb = 2 → status m1 = 2 → status m2 = 2 → status m3 = 2 →
      t1 - start ≤ timeout →
      (ackLoop ∅ start timeout [some m1, some m2, some m3] [t1]).1 =
        AckResult.satisfied) ∧
    (∀ (received : Finset ℕ) (start timeout : ℚ) (recvs : List (Option Msg))
        (clocks : List ℚ),
      recvs.length = clocks.length →
      2 ∉ received →
      (∀ m : Msg, some m ∈ recvs → m.arb = 2 → ¬(status m = 1 ∨ status m = 2)) →
      (∃ t ∈ clocks, timeout < t - start) →
      (ackLoop received start timeout recvs clocks).1 = AckResult.timedOut) ∧
    (∀ (received : Finset ℕ) (start timeout : ℚ) (m : Msg)
        (rest : List (Option Msg)) (clocks : List ℚ),
      status m ≠ 1 → status m ≠ 2 →
      ackLoop received start timeout (some m :: rest) clocks =
        ackLoop received start timeout (none :: rest) clocks) := by
  refine ⟨?_, ?_, ?_⟩
  · intro m1 m2 m3 start timeout t1 h1 h2 hs1 hs2 hs3 ht
    have hupd1 : recvUpdate ∅ (some m1) = ({1} : Finset ℕ) := by
      show (if status m1 = 1 ∨ status m1 = 2 then insert m1.arb ∅ else ∅) = {1}
      rw [if_pos (Or.inr hs1), h1]
      rfl
    have hupd2 : recvUpdate ({1} : Finset ℕ) (some m2) = ({1, 2} : Finset ℕ) := by
      show (if status m2 = 1 ∨ status m2 = 2 then insert m2.arb {1} else {1}) = {1, 2}
      rw [if_pos (Or.inr hs2), h2]
      decide
    rw [ackLoop_cons, hupd1, if_neg (by decide : ¬(({1} : Finset ℕ) = {1, 2}))]
    dsimp only
    rw [if_neg (not_lt.mpr ht), ackLoop_cons, hupd2, if_pos rfl]
    dsimp only
    rw [if_pos (show statusIs2 (some m3) = true by simp [statusIs2, hs3])]
  · intro received start timeout recvs clocks hlen h2 htrace hex
    induction recvs generalizing received clocks with
    | nil =>
      have hcl : clocks = [] := by
        cases clocks with
        | nil => rfl
        | cons t ts => simp at hlen
      subst hcl
      simp at hex
    | cons r rest ih =>
      cases clocks with
      | nil => simp at hlen
      | cons t ts =>
        have h2' : 2 ∉ recvUpdate received r :=
          two_not_mem_recvUpdate h2 (fun m hm => htrace m (by simp [hm]))
        rw [ackLoop_cons, if_neg (ne_expected_of_two_not_mem h2')]
        dsimp only
        by_cases hc : timeout < t - start
        · rw [if_pos hc]
        · rw [if_neg hc]
          refine ih (recvUpdate received r) ts (by simpa using hlen) h2'
            (fun m hm harb => htrace m (List.mem_cons_of_mem r hm) harb) ?_
          rcases hex with ⟨t', ht'mem, ht'⟩
          rcases List.mem_cons.mp ht'mem with rfl | hmem
          · exact absurd ht' hc
          · exact ⟨t', hmem, ht'⟩
  · intro received start timeout m rest clocks hs1 hs2
    have hupd : recvUpdate received (some m) = received := by
      show (if status m = 1 ∨ status m = 2 then insert m.arb received else received) = received
      rw [if_neg]
      rintro (h | h)
      · exact hs1 h
      · exact hs2 h
    have hnone : recvUpdate received none = received := rfl
    rw [ackLoop_cons, ackLoop_cons, hupd, hnone]

theorem handshake_behaviour_witness :
    (ackLoop ∅ 0 3 [some ⟨1, [0, 2]⟩, some ⟨2, [0, 2]⟩, some ⟨1, [0, 2]⟩] [1]).1 =
      AckResult.satisfied ∧
    (ackLoop ∅ 0 3 [some ⟨1, [0, 2]⟩] [4]).1 = AckResult.timedOut := by
  constructor
  · exact handshake_behaviour.1 ⟨1, [0, 2]⟩ ⟨2, [0, 2]⟩ ⟨1, [0, 2]⟩ 0 3 1
      rfl rfl rfl rfl rfl (by norm_num)
  · refine handshake_behaviour.2.1 ∅ 0 3 [some ⟨1, [0, 2]⟩] [4]
      rfl (by decide) ?_ ⟨4, by simp, by norm_num⟩
    intro m hm harb
    simp only [List.mem_singleton, Option.some.injEq] at hm
    subst hm
    exact absurd harb (by decide)

theorem adjust_speeds_isSome {p : List Msg} (h : p ≠ []) :
    ∃ p', adjust_speeds_within_packet p = some p' := by
  unfold adjust_speeds_within_packet
  rw [if_neg h]
  by_cases hr : (p.map speedOf).sum / p.length = 0
  · exact ⟨p, by simp [hr]⟩
  · dsimp only
    rw [if_neg hr]
    exact ⟨_, rfl⟩

theorem runPackets_structure (timeout : ℚ) (ps : List (List Msg)) :
    ∀ (recvs : List (Option Msg)) (clocks : List ℚ),
    (∀ p ∈ ps, p ≠ []) →
    ∃ rs : List AckResult, rs.length = ps.length ∧
      runPackets timeout ps recvs clocks =
        (ps.zip rs).flatMap (fun pr =>
          ((adjust_speeds_within_packet pr.1).getD []).map Ev.sent ++
            [Ev.resolved pr.2]) := by
  induction ps with
  | nil => exact fun recvs clocks _ => ⟨[], rfl, rfl⟩
  | cons p ps ih =>
    intro recvs clocks h
    obtain ⟨p', hp'⟩ := adjust_speeds_isSome (h p (List.mem_cons_self p ps))
    obtain ⟨rs, hlen, heq⟩ :=
      ih (ackLoop ∅ (clocks.headD 0) timeout recvs clocks.tail).2.1
        (ackLoop ∅ (clocks.headD 0) timeout recvs clocks.tail).2.2
        (fun q hq => h q (List.mem_cons_of_mem p hq))
    refine ⟨(ackLoop ∅ (clocks.headD 0) timeout recvs clocks.tail).1 :: rs,
      by simp [hlen], ?_⟩
    simp only [runPackets, can_send_messages, hp', List.zip_cons_cons, List.flatMap_cons,
      Option.getD_some, heq]

/-- C5: packets are processed strictly sequentially — the event trace of
the main loop is exactly, packet by packet, the packet's (speed-adjusted)
frames sent in order followed by the resolution of its acknowledgement
loop, before anything of the next packet; in particular no frame of
packet `N+1` is on the bus before packet `N` resolves, a timeout is
non-fatal (every packet's frames appear whatever the previous outcomes),
and no packet is retried (each appears exactly once). -/
theorem packet_barrier (timeout : ℚ) (ps : List (List Msg))
    (recvs : List (Option Msg)) (clocks : List ℚ) (h : ∀ p ∈ ps, p ≠ []) :
    ∃ rs : List AckResult, rs.length = ps.length ∧
      runPackets timeout ps recvs clocks =
        (ps.zip rs).flatMap (fun pr =>
          ((adjust_speeds_within_packet pr.1).getD []).map Ev.sent ++
            [Ev.resolved pr.2]) :=
  runPackets_structure timeout ps recvs clocks h

theorem chunk6Aux_nil {α : Type} (fuel : ℕ) : chunk6Aux fuel ([] : List α) = [] := by
  cases fuel <;> rfl

theorem chunk6_structure {α : Type} :
    ∀ (fuel : ℕ) (l : List α), l.length ≤ fuel → l ≠ [] →
    ∃ cs c, chunk6Aux fuel l = cs ++ [c] ∧
      (∀ d ∈ cs, d.length = 6) ∧ c ≠ [] ∧ c.length ≤ 6 ∧
      (cs ++ [c]).flatten = l ∧
      (l.length % 6 ≠ 0 → c.length = l.length % 6) := by
  intro fuel
  induction fuel with
  | zero =>
    intro l hl hne
    cases l with
    | nil => exact absurd rfl hne
    | cons a t => simp at hl
  | succ fuel ih =>
    intro l hl hne
    rcases l with _ | ⟨a, t⟩
    · exact absurd rfl hne
    by_cases hd : (a :: t).drop 6 = []
    · have hlen6 : (a :: t).length ≤ 6 := by
        simpa using List.drop_eq_nil_iff.mp hd
      refine ⟨[], a :: t, ?_, by simp, by simp, hlen6, by simp, ?_⟩
      · show ((a :: t).take 6) :: chunk6Aux fuel ((a :: t).drop 6) = [] ++ [a :: t]
        rw [hd, chunk6Aux_nil, List.take_of_length_le hlen6]
        rfl
      · intro hmod
        have : (a :: t).length ≠ 6 := fun e => hmod (by rw [e])
        omega
    · have hgt : 6 < (a :: t).length := by
        by_contra hle
        exact hd (List.drop_eq_nil_iff.mpr (by omega))
      have hlen' : ((a :: t).drop 6).length ≤ fuel := by
        rw [List.length_drop]
        have h1 : (a :: t).length ≤ fuel + 1 := hl
        omega
      obtain ⟨cs, c, hchunk, hcs, hcne, hclen, hjoin, hmod⟩ :=
        ih ((a :: t).drop 6) hlen' hd
      refine ⟨(a :: t).take 6 :: cs, c, ?_, ?_, hcne, hclen, ?_, ?_⟩
      · show ((a :: t).take 6) :: chunk6Aux fuel ((a :: t).drop 6) = _
        rw [hchunk]
        rfl
      · intro d hdmem
        rcases List.mem_cons.mp hdmem with rfl | hm
        · rw [List.length_take, List.length_cons]
          rw [List.length_cons] at hgt
          omega
        · exact hcs d hm
      · show (a :: t).take 6 ++ (cs ++ [c]).flatten = a :: t
        rw [hjoin, List.take_append_drop]
      · intro hmod'
        have h1 : ((a :: t).drop 6).length = t.length + 1 - 6 := by
          rw [List.length_drop, List.length_cons]
        have h2 : (a :: t).length = t.length + 1 := List.length_cons a t
        rw [h2] at hmod' hgt
        have hne0 : ((a :: t).drop 6).length % 6 ≠ 0 := by
          rw [h1]
          omega
        rw [hmod hne0, h1, h2]
        omega

theorem chunk6_eq_aux {α : Type} (l : List α) : chunk6 l = chunk6Aux l.length l := rfl

/-- C10: a `.can` file whose line count is not a multiple of 6 has a
final short group of `n % 6` (1 to 5) lines; that group is grouped,
speed-normalised and sent exactly like a full packet — the event trace is
the same per-packet shape for every group including the last, no group or
line is discarded or padded (the groups join back to the file), and no
error event occurs (`adjust_speeds_within_packet` divides by the group's
actual length, which is nonzero). -/
theorem trailing_short_packet (lines : List (List ℕ)) (timeout : ℚ)
    (recvs : List (Option Msg)) (clocks : List ℚ)
    (h6 : lines.length % 6 ≠ 0) :
    ∃ cs c rs, chunk6 lines = cs ++ [c] ∧
      (∀ d ∈ cs, d.length = 6) ∧
      1 ≤ c.length ∧ c.length ≤ 5 ∧ c.length = lines.length % 6 ∧
      (cs ++ [c]).flatten = lines ∧
      rs.length = cs.length + 1 ∧
      runFile lines timeout recvs clocks =
        (((cs ++ [c]).map (fun ch => ch.map parse_can_message)).zip rs).flatMap
          (fun pr => ((adjust_speeds_within_packet pr.1).getD []).map Ev.sent ++
            [Ev.resolved pr.2]) ∧
      Ev.error ∉ runFile lines timeout recvs clocks := by
  have hne : lines ≠ [] := by
    intro e
    subst e
    simp at h6
  obtain ⟨cs, c, hchunk, hcs, hcne, hclen, hjoin, hmod⟩ :=
    chunk6_structure lines.length lines le_rfl hne
  rw [← chunk6_eq_aux] at hchunk
  have hmod' := hmod h6
  have hc1 : 1 ≤ c.length := by
    cases c with
    | nil => exact absurd rfl hcne
    | cons x xs => simp
  have hc5 : c.length ≤ 5 := by omega
  have hpacket_ne : ∀ p ∈ (cs ++ [c]).map (fun ch => ch.map parse_can_message), p ≠ [] := by
    intro p hp
    simp only [List.mem_map] at hp
    obtain ⟨ch, hch, rfl⟩ := hp
    rcases List.mem_append.mp hch with hmem | hmem
    · have := hcs ch hmem
      intro e
      rw [List.map_eq_nil_iff] at e
      subst e
      simp at this
    · rw [List.mem_singleton.mp hmem]
      intro e
      rw [List.map_eq_nil_iff] at e
      exact hcne e
  obtain ⟨rs, hrslen, hrun⟩ :=
    runPackets_structure timeout ((cs ++ [c]).map (fun ch => ch.map parse_can_message))
      recvs clocks hpacket_ne
  have hrunFile : runFile lines timeout recvs clocks =
      runPackets timeout ((cs ++ [c]).map (fun ch => ch.map parse_can_message))
        recvs clocks := by
    unfold runFile
    rw [hchunk]
  refine ⟨cs, c, rs, hchunk, hcs, hc1, hc5, hmod', hjoin, ?_, ?_, ?_⟩
  · simpa using hrslen
  · rw [hrunFile, hrun]
  · rw [hrunFile, hrun]
    intro hmem
    simp only [List.mem_flatMap, List.mem_append, List.mem_map, List.mem_singleton] at hmem
    obtain ⟨pr, _, hcase⟩ := hmem
    rcases hcase with ⟨m, _, hEv⟩ | hEv <;> simp at hEv

theorem trailing_short_packet_witness :
    ∃ cs c rs,
      chunk6 (List.replicate 7 ([0, 1, 15, 5, 0, 3, 14, 8, 0, 2, 0, 0, 3, 4, 11, 12, 13, 3] :
        List ℕ)) = cs ++ [c] ∧
      (∀ d ∈ cs, d.length = 6) ∧
      1 ≤ c.length ∧ c.length ≤ 5 ∧
      c.length = (List.replicate 7 ([0, 1, 15, 5, 0, 3, 14, 8, 0, 2, 0, 0, 3, 4, 11, 12, 13, 3] :
        List ℕ)).length % 6 ∧
      (cs ++ [c]).flatten = List.replicate 7 ([0, 1, 15, 5, 0, 3, 14, 8, 0, 2, 0, 0, 3, 4, 11, 12, 13, 3] :
        List ℕ) ∧
      rs.length = cs.length + 1 ∧
      runFile (List.replicate 7 ([0, 1, 15, 5, 0, 3, 14, 8, 0, 2, 0, 0, 3, 4, 11, 12, 13, 3] :
          List ℕ)) 3 [] [] =
        (((cs ++ [c]).map (fun ch => ch.map parse_can_message)).zip rs).flatMap
          (fun pr => ((adjust_speeds_within_packet pr.1).getD []).map Ev.sent ++
            [Ev.resolved pr.2]) ∧
      Ev.error ∉ runFile (List.replicate 7 ([0, 1, 15, 5, 0, 3, 14, 8, 0, 2, 0, 0, 3, 4, 11, 12, 13, 3] :
        List ℕ)) 3 [] [] :=
  trailing_short_packet
    (List.replicate 7 ([0, 1, 15, 5, 0, 3, 14, 8, 0, 2, 0, 0, 3, 4, 11, 12, 13, 3] : List ℕ))
    3 [] [] (by decide)

theorem packet_barrier_witness :
    ∃ rs : List AckResult, rs.length = 2 ∧
      runPackets 3 [[⟨1, [0, 0, 0, 0, 0]⟩], [⟨2, [0, 0, 0, 0, 0]⟩]] [] [] =
        ([[⟨1, [0, 0, 0, 0, 0]⟩], [⟨2, [0, 0, 0, 0, 0]⟩]].zip rs).flatMap (fun pr =>
          ((adjust_speeds_within_packet pr.1).getD []).map Ev.sent ++
            [Ev.resolved pr.2]) :=
  packet_barrier 3 [[⟨1, [0, 0, 0, 0, 0]⟩], [⟨2, [0, 0, 0, 0, 0]⟩]] [] []
    (by decide)

end GcodeCANBus
